import Mathlib

/-!
Verification of the `awork_flow` subtitle-production pipeline
(`automate_audio_workflow.py`).

The development shallowly embeds the parts of the program that the
properties below talk about:

* the per-job metadata record (a JSON object with a `steps_completed`
  mapping, an `ass_hash` and a `last_updated` field) becomes the
  structure `Meta`;
* the metadata files on disk become a finite map from path strings to
  parsed records (`FS`); `save_meta` writes a `.tmp` path and then
  performs the `os.replace`, exactly as the source does;
* the three step functions and the worker-loop body become pure
  functions over `FS`, with the outcomes of the external world
  (subprocess exit codes, existence of the generated files, results of
  stability waits and file moves) supplied by an oracle record `Env`;
  raised exceptions become an `err` field that aborts the remaining
  statements of the step or pass while keeping the file-system changes
  already made;
* `wait_until_stable` becomes a function of the sampled size sequence
  (`Nat → Int`, with the source's `-1` sentinel standing for "getsize
  raised"), with sampling times measured in rationals.
-/

namespace Awork

/-! ### Data model: the per-job metadata record -/

/-- The three pipeline steps, as named by the keys of the
`steps_completed` mapping in the metadata JSON. -/
inductive StepName where
  | process_audio
  | ass_to_srt
  | translate
deriving DecidableEq, Repr

/-- The `steps_completed` mapping of a metadata record.  Each field is
`none` when the key is absent from the dict (an absent dict is
identified with the empty dict: the source only ever accesses it through
`get`/`setdefault`, which cannot distinguish the two). -/
structure StepsCompleted where
  process_audio : Option Bool
  ass_to_srt : Option Bool
  translate : Option Bool
deriving DecidableEq, Repr

/-- The parsed content of a `<base>.meta.json` file.  `extra` carries
any further JSON fields, so that frame conditions ("every other field
unchanged") are expressible. -/
structure Meta where
  steps_completed : StepsCompleted
  ass_hash : Option String
  last_updated : Option String
  extra : List (String × String)
deriving DecidableEq, Repr

/-- The empty `steps_completed` mapping. -/
def StepsCompleted.empty : StepsCompleted := ⟨none, none, none⟩

/-- The empty record returned by `load_meta` when no file exists. -/
def Meta.empty : Meta := ⟨StepsCompleted.empty, none, none, []⟩

/-- Look a step's flag up in the `steps_completed` dict
(`m.get("steps_completed", \x7b\x7d).get(step)`). -/
def getFlag (sc : StepsCompleted) : StepName → Option Bool
  | .process_audio => sc.process_audio
  | .ass_to_srt => sc.ass_to_srt
  | .translate => sc.translate

/-- Write (`v = some b`) or pop (`v = none`) a step's entry of the
`steps_completed` dict. -/
def setFlag (sc : StepsCompleted) : StepName → Option Bool → StepsCompleted
  | .process_audio, v => { sc with process_audio := v }
  | .ass_to_srt, v => { sc with ass_to_srt := v }
  | .translate, v => { sc with translate := v }

/-- Python truthiness of a flag read from the dict: only a present
`True` is truthy (`None` and `False` are falsy). -/
def flagTrue (m : Meta) (s : StepName) : Bool :=
  match getFlag m.steps_completed s with
  | some true => true
  | _ => false

/-! ### Metadata store (`meta_path`, `load_meta`, `save_meta`) -/

/-- The file system as seen by the metadata helpers: each path maps to
the parsed record stored there, `none` when the file does not exist.
(Only metadata files matter to the embedded code, so values are parsed
records; JSON serialisation round-trips on JSON-representable values,
which `Meta` is by construction.) -/
def FS : Type := String → Option Meta

/-- Writing a file (`open(p, "w")` + `json.dump`). -/
def fsSet (fs : FS) (p : String) (m : Meta) : FS :=
  fun q => if q = p then some m else fs q

/-- The atomic rename `os.replace(src, dst)`. -/
def os_replace (fs : FS) (src dst : String) : FS :=
  fun q => if q = dst then fs src else if q = src then none else fs q

/-- Path of the metadata file for a base name (the `SCRIPT_DIR` prefix,
common to all paths, is dropped). -/
def meta_path (base : String) : String := base ++ ".meta.json"

/-- The temporary path `meta_path(base) + ".tmp"` used by `save_meta`. -/
def tmp_path (base : String) : String := meta_path base ++ ".tmp"

/-- `load_meta`: the parsed file, or the empty record when it does not
exist. -/
def load_meta (fs : FS) (base : String) : Meta :=
  (fs (meta_path base)).getD Meta.empty

/-- The first half of `save_meta`: dump the record to the `.tmp` path.
A save interrupted before the `os.replace` has performed exactly this. -/
def write_tmp (fs : FS) (base : String) (m : Meta) : FS :=
  fsSet fs (tmp_path base) m

/-- `save_meta`: write to the temporary path, then atomically replace
the metadata path. -/
def save_meta (fs : FS) (base : String) (m : Meta) : FS :=
  os_replace (write_tmp fs base m) (tmp_path base) (meta_path base)

theorem meta_path_ne_tmp_path (base : String) : meta_path base ≠ tmp_path base := by
  intro h
  have hlen := congrArg String.length h
  have h4 : (".tmp" : String).length = 4 := rfl
  simp only [tmp_path, String.length_append, h4] at hlen
  omega

theorem load_save_meta (fs : FS) (base : String) (m : Meta) :
    load_meta (save_meta fs base m) base = m := by
  simp [load_meta, save_meta, write_tmp, os_replace, fsSet]

theorem load_write_tmp (fs : FS) (base : String) (m : Meta) :
    load_meta (write_tmp fs base m) base = load_meta fs base := by
  simp [load_meta, write_tmp, fsSet, meta_path_ne_tmp_path base]

/-! ### Step functions and the worker

External effects (subprocess exits, file existence, stability waits,
`shutil.move` outcomes, the SHA-256 of the generated subtitle file) are
supplied by the oracle `Env`; a raised exception is an `err` value that
propagates out of the remaining statements while keeping the
file-system state already produced. -/

/-- Outcomes of the external world during one worker pass. -/
structure Env where
  /-- `process_audio.bat` exits 0 (`check=True` would otherwise raise). -/
  step1_exit_ok : Bool
  /-- the expected `<base>.ass` file exists after the batch run. -/
  ass_created : Bool
  /-- the preserved copy `<base>.ass.orig` already exists before step 1. -/
  orig_exists : Bool
  /-- result of `wait_until_stable` on the generated `.ass` file. -/
  stable_ok : Bool
  /-- `file_hash` of the stabilised `.ass` file. -/
  new_hash : String
  /-- the `shutil.move` calls relocating `.ass`/`.ass.orig` succeed. -/
  move_ok : Bool
  /-- `ffmpeg` exits 0 in step 2. -/
  step2_exit_ok : Bool
  /-- `translate_srt_to_chinese.bat` exits 0 in step 3. -/
  step3_exit_ok : Bool

/-- The exceptions the embedded code can raise. -/
inductive StepErr where
  | calledProcessError
  | fileNotFound
  | moveFailed
deriving DecidableEq, Repr

/-- Observable events of a pass: a step function being invoked by the
worker, a `save_meta` call persisting a record, and the step-1
relocation of the subtitle files into the artifact area. -/
inductive Ev where
  | invoked (s : StepName)
  | saved (m : Meta)
  | movedToArtifacts
deriving DecidableEq

/-- Result of running a step function or a worker pass: the file system
afterwards, the events in order, and the exception that escaped, if
any. -/
structure Out where
  fs : FS
  trace : List Ev
  err : Option StepErr

/-- The records passed to `save_meta` during a trace, in order. -/
def savedRecords (t : List Ev) : List Meta :=
  t.filterMap fun e =>
    match e with
    | .saved m => some m
    | _ => none

/-- Step 1 (`step1_process_audio`): run the batch script, check the
`.ass` exists, and on the first successful run (no `.ass.orig` yet)
wait for stability, record the hash, set `process_audio`, save, then
move `.ass` and `.ass.orig` into the artifact area.  Note the save
happens before the moves, and a failed stability wait returns without
setting the flag. -/
def step1_process_audio (env : Env) (base now : String) (fs : FS) : Out :=
  if ¬ env.step1_exit_ok then ⟨fs, [], some .calledProcessError⟩
  else if ¬ env.ass_created then ⟨fs, [], some .fileNotFound⟩
  else if env.orig_exists then ⟨fs, [], none⟩
  else if ¬ env.stable_ok then ⟨fs, [], none⟩
  else
    let m := load_meta fs base
    let m1 : Meta :=
      { m with
          ass_hash := some env.new_hash
          steps_completed := setFlag m.steps_completed .process_audio (some true)
          last_updated := some now }
    let fs1 := save_meta fs base m1
    if ¬ env.move_ok then ⟨fs1, [.saved m1], some .moveFailed⟩
    else ⟨fs1, [.saved m1, .movedToArtifacts], none⟩

/-- Step 2 (`step2_ass_to_srt`): one `ffmpeg` invocation; raises on
non-zero exit, touches no metadata itself. -/
def step2_ass_to_srt (env : Env) (fs : FS) : Out :=
  if env.step2_exit_ok then ⟨fs, [], none⟩
  else ⟨fs, [], some .calledProcessError⟩

/-- Step 3 (`step3_translate_srt`): the translation batch script;
raises on non-zero exit.  The subsequent output-file moves are
best-effort (wrapped in try/except) and touch no metadata. -/
def step3_translate_srt (env : Env) (fs : FS) : Out :=
  if env.step3_exit_ok then ⟨fs, [], none⟩
  else ⟨fs, [], some .calledProcessError⟩

/-- The body of `worker_loop` for one dequeued base name: load the
record, and either (flag `process_audio` truthy) run steps 2 and 3
guarding each with the flags of the record loaded at the start of the
pass and saving after each, or (otherwise) run steps 1, 2, 3
unconditionally and save the `ass_to_srt` and `translate` flags
together after step 3. -/
def worker_pass (env : Env) (base now : String) (fs : FS) : Out :=
  let m := load_meta fs base
  if flagTrue m .process_audio then
    let o2 : Out :=
      if flagTrue m .ass_to_srt then ⟨fs, [], none⟩
      else
        let s := step2_ass_to_srt env fs
        match s.err with
        | some e => ⟨s.fs, .invoked .ass_to_srt :: s.trace, some e⟩
        | none =>
          let meta := load_meta s.fs base
          let meta1 : Meta :=
            { meta with
                steps_completed := setFlag meta.steps_completed .ass_to_srt (some true)
                last_updated := some now }
          ⟨save_meta s.fs base meta1,
            .invoked .ass_to_srt :: (s.trace ++ [.saved meta1]), none⟩
    match o2.err with
    | some _ => o2
    | none =>
      if flagTrue m .translate then o2
      else
        let s := step3_translate_srt env o2.fs
        match s.err with
        | some e => ⟨s.fs, o2.trace ++ (.invoked .translate :: s.trace), some e⟩
        | none =>
          let meta := load_meta s.fs base
          let meta1 : Meta :=
            { meta with
                steps_completed := setFlag meta.steps_completed .translate (some true)
                last_updated := some now }
          ⟨save_meta s.fs base meta1,
            o2.trace ++ (.invoked .translate :: (s.trace ++ [.saved meta1])), none⟩
  else
    let s1 := step1_process_audio env base now fs
    match s1.err with
    | some e => ⟨s1.fs, .invoked .process_audio :: s1.trace, some e⟩
    | none =>
      let s2 := step2_ass_to_srt env s1.fs
      match s2.err with
      | some e =>
        ⟨s2.fs, (.invoked .process_audio :: s1.trace) ++ (.invoked .ass_to_srt :: s2.trace),
          some e⟩
      | none =>
        let s3 := step3_translate_srt env s2.fs
        match s3.err with
        | some e =>
          ⟨s3.fs,
            (.invoked .process_audio :: s1.trace) ++
              ((.invoked .ass_to_srt :: s2.trace) ++ (.invoked .translate :: s3.trace)),
            some e⟩
        | none =>
          let meta := load_meta s3.fs base
          let meta1 : Meta :=
            { meta with
                steps_completed :=
                  setFlag (setFlag meta.steps_completed .ass_to_srt (some true))
                    .translate (some true)
                last_updated := some now }
          ⟨save_meta s3.fs base meta1,
            (.invoked .process_audio :: s1.trace) ++
              ((.invoked .ass_to_srt :: s2.trace) ++
                ((.invoked .translate :: s3.trace) ++ [.saved meta1])),
            none⟩

/-- The worker loop over the queue contents: a `none` entry is the
sentinel that breaks the loop; every other entry is processed inside
try/except, so an exception of one pass never stops the loop.  Returns
the final file system and, per processed base, the pass outcome. -/
def worker_loop (now : String) : FS → List (Option (String × Env)) → FS × List (String × Out)
  | fs, [] => (fs, [])
  | fs, none :: _ => (fs, [])
  | fs, some (b, e) :: rest =>
    let o := worker_pass e b now fs
    let r := worker_loop now o.fs rest
    (r.1, (b, o) :: r.2)

/-! ### The subtitle-edit watcher and resume mode -/

/-- Outcomes of the external world during one `on_modified` callback. -/
structure EditEnv where
  /-- result of `wait_until_stable` on the edited `.ass` file. -/
  stable_ok : Bool
  /-- `file_hash` did not raise. -/
  hash_ok : Bool
  /-- the computed hash of the edited file. -/
  new_hash : String

/-- `AssModifiedHandler.on_modified` for a stable `.ass` event: compare
the new hash with the stored `ass_hash`; when different, store the new
hash, pop the `ass_to_srt` and `translate` flags, save, and enqueue
(the returned Bool). -/
def on_modified (env : EditEnv) (base : String) (fs : FS) : FS × Bool :=
  if ¬ env.stable_ok then (fs, false)
  else if ¬ env.hash_ok then (fs, false)
  else
    let m := load_meta fs base
    if m.ass_hash ≠ some env.new_hash then
      let m1 : Meta :=
        { m with
            ass_hash := some env.new_hash
            steps_completed :=
              setFlag (setFlag m.steps_completed .ass_to_srt none) .translate none }
      (save_meta fs base m1, true)
    else (fs, false)

/-- The default of the `--from-step` argument. -/
def default_from_step : Nat := 2

/-- The resume branch of `main`: seed the flags of the steps presumed
already complete, save, and enqueue (the returned Bool).  `argparse`
restricts `fromStep` to 1, 2 or 3. -/
def resume_seed (fromStep : Nat) (base : String) (fs : FS) : FS × Bool :=
  if fromStep ≤ 1 then (fs, true)
  else if fromStep = 2 then
    let m := load_meta fs base
    let m1 : Meta :=
      { m with steps_completed := setFlag m.steps_completed .process_audio (some true) }
    (save_meta fs base m1, true)
  else if fromStep = 3 then
    let m := load_meta fs base
    let m1 : Meta :=
      { m with
          steps_completed :=
            setFlag (setFlag m.steps_completed .process_audio (some true))
              .ass_to_srt (some true) }
    (save_meta fs base m1, true)
  else (fs, false)

/-! ### The stability detector (`wait_until_stable`)

The loop samples `os.path.getsize` once per `poll` seconds; the sample
at iteration `k` (taken at time `poll * k` after the start) is
`sizeAt k`, an integer where the source's sentinel `-1` stands for "the
file does not exist / getsize raised" (the `except` branch).  The
initial probe before the loop is `sizeAt 0`, and both `start` and the
initial `stable_since` are time 0.  The loop always terminates once
`poll * k` exceeds `timeout`; the `fuel` argument is a bound on the
remaining iterations, and the returned sample index is kept so that
when the loop returned can be reasoned about. -/

/-- The polling loop of `wait_until_stable`, one constructor argument
per mutable Python local (`last_size`, `stable_since`). -/
def waitAux (sizeAt : Nat → Int) (timeout stable_time poll : ℚ) :
    Nat → Nat → Int → ℚ → Option (Bool × Nat)
  | 0, _, _, _ => none
  | fuel + 1, k, lastSize, stableSince =>
    if sizeAt k = lastSize then
      if stable_time ≤ poll * (k : ℚ) - stableSince then some (true, k)
      else if timeout < poll * (k : ℚ) then some (false, k)
      else waitAux sizeAt timeout stable_time poll fuel (k + 1) lastSize stableSince
    else
      if timeout < poll * (k : ℚ) then some (false, k)
      else waitAux sizeAt timeout stable_time poll fuel (k + 1) (sizeAt k) (poll * (k : ℚ))

/-- Iterations that provably exhaust the timeout window. -/
def wait_fuel (timeout poll : ℚ) : Nat := (⌈timeout / poll⌉).toNat + 2

/-- `wait_until_stable`: poll until the size is unchanged for
`stable_time`, or until `timeout` has elapsed.  Returns the decision
together with the index of the sample at which the loop returned. -/
def wait_until_stable (sizeAt : Nat → Int) (timeout stable_time poll : ℚ) :
    Option (Bool × Nat) :=
  waitAux sizeAt timeout stable_time poll (wait_fuel timeout poll) 1 (sizeAt 0) 0

theorem timeout_le_poll_ceil (timeout poll : ℚ) (hp : 0 < poll) (hto : 0 ≤ timeout) :
    timeout ≤ poll * (((⌈timeout / poll⌉).toNat : ℕ) : ℚ) := by
  have hnn : (0 : ℚ) ≤ timeout / poll := div_nonneg hto hp.le
  have hceil : (0 : ℤ) ≤ ⌈timeout / poll⌉ := Int.ceil_nonneg hnn
  have hle : timeout / poll ≤ ((⌈timeout / poll⌉ : ℤ) : ℚ) := Int.le_ceil _
  have hcast : (((⌈timeout / poll⌉).toNat : ℕ) : ℚ) = ((⌈timeout / poll⌉ : ℤ) : ℚ) := by
    exact_mod_cast Int.toNat_of_nonneg hceil
  rw [hcast]
  calc timeout = timeout / poll * poll := by field_simp
    _ ≤ ((⌈timeout / poll⌉ : ℤ) : ℚ) * poll := mul_le_mul_of_nonneg_right hle hp.le
    _ = poll * ((⌈timeout / poll⌉ : ℤ) : ℚ) := mul_comm _ _

theorem waitAux_const_true (sizeAt : Nat → Int) (timeout stable_time poll : ℚ) (c : Int)
    (hs : ∀ j, sizeAt j = c) (hto : stable_time ≤ timeout) :
    ∀ (fuel k : Nat), stable_time ≤ poll * ((k + fuel : ℕ) : ℚ) →
      ∃ n, waitAux sizeAt timeout stable_time poll (fuel + 1) k c 0 = some (true, n) := by
  intro fuel
  induction fuel with
  | zero =>
    intro k hk
    rw [Nat.add_zero] at hk
    have hk0 : stable_time ≤ poll * (k : ℚ) - 0 := by
      rw [sub_zero]
      exact hk
    refine ⟨k, ?_⟩
    rw [waitAux, if_pos (hs k), if_pos hk0]
  | succ fuel ih =>
    intro k hk
    by_cases hst : stable_time ≤ poll * (k : ℚ) - 0
    · refine ⟨k, ?_⟩
      rw [waitAux, if_pos (hs k), if_pos hst]
    · have hlt : poll * (k : ℚ) < stable_time := by
        push_neg at hst
        simpa using hst
      have hnt : ¬ timeout < poll * (k : ℚ) := by
        push_neg
        exact le_trans hlt.le hto
      have harg : stable_time ≤ poll * (((k + 1) + fuel : ℕ) : ℚ) := by
        have he : (k + 1) + fuel = k + (fuel + 1) := by omega
        rw [he]
        exact hk
      obtain ⟨n, hn⟩ := ih (k + 1) harg
      refine ⟨n, ?_⟩
      rw [waitAux, if_pos (hs k), if_neg hst, if_neg hnt]
      exact hn

theorem waitAux_change_false (sizeAt : Nat → Int) (timeout stable_time poll : ℚ)
    (hc : ∀ j, sizeAt (j + 1) ≠ sizeAt j) :
    ∀ (fuel k : Nat) (s : ℚ), 1 ≤ k → timeout < poll * ((k + fuel : ℕ) : ℚ) →
      ∃ n, waitAux sizeAt timeout stable_time poll (fuel + 1) k (sizeAt (k - 1)) s
        = some (false, n) := by
  intro fuel
  induction fuel with
  | zero =>
    intro k s hk1 hk
    have hne : sizeAt k ≠ sizeAt (k - 1) := by
      have h0 := hc (k - 1)
      rwa [Nat.sub_add_cancel hk1] at h0
    rw [Nat.add_zero] at hk
    refine ⟨k, ?_⟩
    rw [waitAux, if_neg hne, if_pos hk]
  | succ fuel ih =>
    intro k s hk1 hk
    have hne : sizeAt k ≠ sizeAt (k - 1) := by
      have h0 := hc (k - 1)
      rwa [Nat.sub_add_cancel hk1] at h0
    by_cases ht : timeout < poll * (k : ℚ)
    · refine ⟨k, ?_⟩
      rw [waitAux, if_neg hne, if_pos ht]
    · have harg : timeout < poll * (((k + 1) + fuel : ℕ) : ℚ) := by
        have he : (k + 1) + fuel = k + (fuel + 1) := by omega
        rw [he]
        exact hk
      have hrec := ih (k + 1) (poll * (k : ℚ)) (by omega) harg
      rw [Nat.add_sub_cancel] at hrec
      obtain ⟨n, hn⟩ := hrec
      refine ⟨n, ?_⟩
      rw [waitAux, if_neg hne, if_neg ht]
      exact hn

theorem waitAux_false_after_timeout (sizeAt : Nat → Int) (timeout stable_time poll : ℚ) :
    ∀ (fuel k : Nat) (lastSize : Int) (s : ℚ) (n : Nat),
      waitAux sizeAt timeout stable_time poll fuel k lastSize s = some (false, n) →
      timeout < poll * (n : ℚ) := by
  intro fuel
  induction fuel with
  | zero =>
    intro k lastSize s n h
    simp [waitAux] at h
  | succ fuel ih =>
    intro k lastSize s n h
    rw [waitAux] at h
    by_cases he : sizeAt k = lastSize
    · rw [if_pos he] at h
      by_cases hst : stable_time ≤ poll * (k : ℚ) - s
      · rw [if_pos hst] at h
        simp at h
      · rw [if_neg hst] at h
        by_cases ht : timeout < poll * (k : ℚ)
        · rw [if_pos ht] at h
          simp only [Option.some.injEq, Prod.mk.injEq] at h
          exact h.2 ▸ ht
        · rw [if_neg ht] at h
          exact ih _ _ _ _ h
    · rw [if_neg he] at h
      by_cases ht : timeout < poll * (k : ℚ)
      · rw [if_pos ht] at h
        simp only [Option.some.injEq, Prod.mk.injEq] at h
        exact h.2 ▸ ht
      · rw [if_neg ht] at h
        exact ih _ _ _ _ h

theorem wait_const_true (sizeAt : Nat → Int) (timeout stable_time poll : ℚ)
    (hp : 0 < poll) (hto : 0 ≤ timeout) (hst : stable_time ≤ timeout)
    (hs : ∀ j, sizeAt j = sizeAt 0) :
    ∃ n, wait_until_stable sizeAt timeout stable_time poll = some (true, n) := by
  have h1 := timeout_le_poll_ceil timeout poll hp hto
  have hmono : poll * (((⌈timeout / poll⌉).toNat : ℕ) : ℚ)
      ≤ poll * ((1 + ((⌈timeout / poll⌉).toNat + 1) : ℕ) : ℚ) := by
    refine mul_le_mul_of_nonneg_left ?_ hp.le
    have hle2 : (⌈timeout / poll⌉).toNat ≤ 1 + ((⌈timeout / poll⌉).toNat + 1) := by omega
    exact_mod_cast hle2
  have hfuel : stable_time ≤ poll * ((1 + ((⌈timeout / poll⌉).toNat + 1) : ℕ) : ℚ) :=
    le_trans hst (le_trans h1 hmono)
  obtain ⟨n, hn⟩ := waitAux_const_true sizeAt timeout stable_time poll (sizeAt 0) hs hst
    ((⌈timeout / poll⌉).toNat + 1) 1 hfuel
  refine ⟨n, ?_⟩
  rw [wait_until_stable, wait_fuel]
  exact hn

theorem waitAux_tail_true (sizeAt : Nat → Int) (timeout stable_time poll : ℚ) (j : Nat)
    (hj : ∀ i, j ≤ i → sizeAt i = sizeAt j) :
    ∀ (fuel k : Nat) (s : ℚ), j + 1 ≤ k → s + stable_time ≤ timeout →
      stable_time + s ≤ poll * ((k + fuel : ℕ) : ℚ) →
      ∃ n, waitAux sizeAt timeout stable_time poll (fuel + 1) k (sizeAt j) s
        = some (true, n) := by
  intro fuel
  induction fuel with
  | zero =>
    intro k s hk hsto hfb
    rw [Nat.add_zero] at hfb
    have heq : sizeAt k = sizeAt j := hj k (by omega)
    have hcond : stable_time ≤ poll * (k : ℚ) - s := by linarith
    refine ⟨k, ?_⟩
    rw [waitAux, if_pos heq, if_pos hcond]
  | succ fuel ih =>
    intro k s hk hsto hfb
    have heq : sizeAt k = sizeAt j := hj k (by omega)
    by_cases hcond : stable_time ≤ poll * (k : ℚ) - s
    · refine ⟨k, ?_⟩
      rw [waitAux, if_pos heq, if_pos hcond]
    · have hnt : ¬ timeout < poll * (k : ℚ) := by
        push_neg at hcond ⊢
        linarith
      have harg : stable_time + s ≤ poll * (((k + 1) + fuel : ℕ) : ℚ) := by
        have he : (k + 1) + fuel = k + (fuel + 1) := by omega
        rw [he]
        exact hfb
      obtain ⟨n, hn⟩ := ih (k + 1) s (by omega) hsto harg
      refine ⟨n, ?_⟩
      rw [waitAux, if_pos heq, if_neg hcond, if_neg hnt]
      exact hn

theorem waitAux_reach_true (sizeAt : Nat → Int) (timeout stable_time poll : ℚ) (j : Nat)
    (hj : ∀ i, j ≤ i → sizeAt i = sizeAt j)
    (hst0 : 0 ≤ stable_time) (hpol : 0 ≤ poll)
    (hwin : poll * (j : ℚ) + stable_time ≤ timeout) :
    ∀ (fuel k : Nat) (s : ℚ), 1 ≤ k → k ≤ j + 1 → s ≤ poll * ((k : ℚ) - 1) →
      j + 1 ≤ k + fuel →
      stable_time + poll * (j : ℚ) ≤ poll * ((k + fuel : ℕ) : ℚ) →
      ∃ n, waitAux sizeAt timeout stable_time poll (fuel + 1) k (sizeAt (k - 1)) s
        = some (true, n) := by
  intro fuel
  induction fuel with
  | zero =>
    intro k s hk1 hkj hs hreach hfb
    have hkeq : k = j + 1 := by omega
    subst hkeq
    have hsj : s ≤ poll * (j : ℚ) := by
      have hc : ((j + 1 : ℕ) : ℚ) - 1 = (j : ℚ) := by push_cast; ring
      rwa [hc] at hs
    refine waitAux_tail_true sizeAt timeout stable_time poll j hj 0 (j + 1) s (by omega)
      (by linarith) ?_
    rw [Nat.add_zero] at hfb ⊢
    linarith
  | succ fuel ih =>
    intro k s hk1 hkj hs hreach hfb
    by_cases hkeq : k = j + 1
    · subst hkeq
      have hsj : s ≤ poll * (j : ℚ) := by
        have hc : ((j + 1 : ℕ) : ℚ) - 1 = (j : ℚ) := by push_cast; ring
        rwa [hc] at hs
      refine waitAux_tail_true sizeAt timeout stable_time poll j hj (fuel + 1) (j + 1) s
        (by omega) (by linarith) (by push_cast at hfb ⊢; linarith)
    · have hklt : k ≤ j := by omega
      have hmono : poll * (k : ℚ) ≤ poll * (j : ℚ) := by
        refine mul_le_mul_of_nonneg_left ?_ hpol
        exact_mod_cast hklt
      have hnt : ¬ timeout < poll * (k : ℚ) := by
        push_neg
        linarith
      have hsk : s ≤ poll * (((k + 1 : ℕ) : ℚ) - 1) := by
        have hc : ((k + 1 : ℕ) : ℚ) - 1 = (k : ℚ) := by push_cast; ring
        rw [hc]
        have hup : poll * ((k : ℚ) - 1) ≤ poll * (k : ℚ) := by
          refine mul_le_mul_of_nonneg_left ?_ hpol
          linarith
        linarith
      have hfb1 : stable_time + poll * (j : ℚ) ≤ poll * (((k + 1) + fuel : ℕ) : ℚ) := by
        have he : (k + 1) + fuel = k + (fuel + 1) := by omega
        rw [he]
        exact hfb
      by_cases heq : sizeAt k = sizeAt (k - 1)
      · by_cases hcond : stable_time ≤ poll * (k : ℚ) - s
        · refine ⟨k, ?_⟩
          rw [waitAux, if_pos heq, if_pos hcond]
        · obtain ⟨n, hn⟩ := ih (k + 1) s (by omega) (by omega) hsk (by omega) hfb1
          rw [show k + 1 - 1 = k from rfl] at hn
          rw [heq] at hn
          refine ⟨n, ?_⟩
          rw [waitAux, if_pos heq, if_neg hcond, if_neg hnt]
          exact hn
      · have hsk2 : poll * (k : ℚ) ≤ poll * (((k + 1 : ℕ) : ℚ) - 1) := by
          have hc : ((k + 1 : ℕ) : ℚ) - 1 = (k : ℚ) := by push_cast; ring
          rw [hc]
        obtain ⟨n, hn⟩ := ih (k + 1) (poll * (k : ℚ)) (by omega) (by omega) hsk2
          (by omega) hfb1
        rw [show k + 1 - 1 = k from rfl] at hn
        refine ⟨n, ?_⟩
        rw [waitAux, if_neg heq, if_neg hnt]
        exact hn

theorem wait_eventually_true (sizeAt : Nat → Int) (timeout stable_time poll : ℚ)
    (hp : 0 < poll) (hst0 : 0 ≤ stable_time) (j : Nat)
    (hj : ∀ i, j ≤ i → sizeAt i = sizeAt j)
    (hwin : poll * (j : ℚ) + stable_time ≤ timeout) :
    ∃ n, wait_until_stable sizeAt timeout stable_time poll = some (true, n) := by
  have hjq : (0 : ℚ) ≤ poll * (j : ℚ) := mul_nonneg hp.le (Nat.cast_nonneg j)
  have hto : (0 : ℚ) ≤ timeout := by linarith
  have h1 := timeout_le_poll_ceil timeout poll hp hto
  have hjle : j ≤ (⌈timeout / poll⌉).toNat := by
    by_contra hgt
    push_neg at hgt
    have hcast : ((((⌈timeout / poll⌉).toNat : ℕ)) : ℚ) < (j : ℚ) := by
      exact_mod_cast hgt
    have hmul : poll * (((⌈timeout / poll⌉).toNat : ℕ) : ℚ) < poll * (j : ℚ) :=
      mul_lt_mul_of_pos_left hcast hp
    linarith
  have hfb : stable_time + poll * (j : ℚ)
      ≤ poll * ((1 + ((⌈timeout / poll⌉).toNat + 1) : ℕ) : ℚ) := by
    have hmono : poll * (((⌈timeout / poll⌉).toNat : ℕ) : ℚ)
        ≤ poll * ((1 + ((⌈timeout / poll⌉).toNat + 1) : ℕ) : ℚ) := by
      refine mul_le_mul_of_nonneg_left ?_ hp.le
      have hle2 : (⌈timeout / poll⌉).toNat ≤ 1 + ((⌈timeout / poll⌉).toNat + 1) := by omega
      exact_mod_cast hle2
    linarith
  obtain ⟨n, hn⟩ := waitAux_reach_true sizeAt timeout stable_time poll j hj hst0 hp.le hwin
    ((⌈timeout / poll⌉).toNat + 1) 1 0 (by omega) (by omega)
    (by push_cast; linarith) (by omega) hfb
  refine ⟨n, ?_⟩
  rw [wait_until_stable, wait_fuel]
  exact hn

theorem wait_change_false (sizeAt : Nat → Int) (timeout stable_time poll : ℚ)
    (hp : 0 < poll) (hto : 0 ≤ timeout)
    (hc : ∀ j, sizeAt (j + 1) ≠ sizeAt j) :
    ∃ n, wait_until_stable sizeAt timeout stable_time poll = some (false, n) := by
  have h1 := timeout_le_poll_ceil timeout poll hp hto
  have hmono : poll * (((⌈timeout / poll⌉).toNat : ℕ) : ℚ)
      < poll * ((1 + ((⌈timeout / poll⌉).toNat + 1) : ℕ) : ℚ) := by
    refine mul_lt_mul_of_pos_left ?_ hp
    have hlt2 : (⌈timeout / poll⌉).toNat < 1 + ((⌈timeout / poll⌉).toNat + 1) := by omega
    exact_mod_cast hlt2
  have hfuel : timeout < poll * ((1 + ((⌈timeout / poll⌉).toNat + 1) : ℕ) : ℚ) :=
    lt_of_le_of_lt h1 hmono
  obtain ⟨n, hn⟩ := waitAux_change_false sizeAt timeout stable_time poll hc
    ((⌈timeout / poll⌉).toNat + 1) 1 0 (by omega) hfuel
  refine ⟨n, ?_⟩
  rw [wait_until_stable, wait_fuel]
  exact hn

/-! ### Helper lemmas about flags -/

theorem flagTrue_iff (m : Meta) (s : StepName) :
    flagTrue m s = true ↔ getFlag m.steps_completed s = some true := by
  unfold flagTrue
  rcases hv : getFlag m.steps_completed s with _ | b
  · simp
  · cases b <;> simp

theorem flagTrue_eq_false_of_ne (m : Meta) (s : StepName)
    (h : getFlag m.steps_completed s ≠ some true) : flagTrue m s = false := by
  rcases hb : flagTrue m s with _ | _
  · rfl
  · exact absurd ((flagTrue_iff m s).mp hb) h

/-! ### The claims -/

/-- C5: for every base name and metadata record, `save_meta` followed by
`load_meta` returns the record that was saved; a save interrupted after
writing only the temporary file leaves what `load_meta` observes
unchanged (the atomic `os.replace` means no partially written record is
ever visible); and `load_meta` of a base with no metadata file returns
the empty record without failing. -/
theorem c5_meta_roundtrip (fs : FS) (base : String) (m : Meta) :
    load_meta (save_meta fs base m) base = m
    ∧ load_meta (write_tmp fs base m) base = load_meta fs base
    ∧ (fs (meta_path base) = none → load_meta fs base = Meta.empty) := by
  refine ⟨load_save_meta fs base m, load_write_tmp fs base m, fun h => ?_⟩
  simp [load_meta, h]

/-- Witness for C5 at a concrete store, base name and record. -/
theorem c5_meta_roundtrip_witness :
    load_meta (save_meta (fun _ => none) "demo" Meta.empty) "demo" = Meta.empty
    ∧ load_meta (fun _ => none) "demo" = Meta.empty :=
  ⟨(c5_meta_roundtrip (fun _ => none) "demo" Meta.empty).1,
   (c5_meta_roundtrip (fun _ => none) "demo" Meta.empty).2.2 rfl⟩

/-- C6: the stability detector samples the size sequence at `poll`
intervals and (i) returns true once the observed size has stopped
changing — if the size is constant from sample `j` on and a full
`stable_time` window still fits before `timeout`, the call returns
true (that a nonexistent or disappearing file is an "unknown size"
observation rather than an error is built into the embedding: `getsize`
failures are the in-range sentinel `-1` and every branch is total);
(ii) returns false when the size changes at every sample; and (iii) it
returns false only at a sample taken strictly after `timeout` has
elapsed since the start, so transient errors never cause an early
false. -/
theorem c6_wait_until_stable_contract (sizeAt : Nat → Int)
    (timeout stable_time poll : ℚ)
    (hp : 0 < poll) (hto : 0 ≤ timeout) (hst0 : 0 ≤ stable_time) :
    (∀ j : Nat, (∀ i, j ≤ i → sizeAt i = sizeAt j) →
      poll * (j : ℚ) + stable_time ≤ timeout →
      ∃ n, wait_until_stable sizeAt timeout stable_time poll = some (true, n))
    ∧ ((∀ i, sizeAt (i + 1) ≠ sizeAt i) →
      ∃ n, wait_until_stable sizeAt timeout stable_time poll = some (false, n))
    ∧ (∀ n, wait_until_stable sizeAt timeout stable_time poll = some (false, n) →
      timeout < poll * (n : ℚ)) := by
  refine ⟨fun j hj hwin => wait_eventually_true sizeAt timeout stable_time poll hp hst0 j
      hj hwin,
    fun hc => wait_change_false sizeAt timeout stable_time poll hp hto hc,
    fun n h => ?_⟩
  exact waitAux_false_after_timeout sizeAt timeout stable_time poll
    (wait_fuel timeout poll) 1 (sizeAt 0) 0 n h

/-- Witness for C6 at the source's default parameters and a file of
constant size 5. -/
theorem c6_wait_until_stable_witness :
    (0 : ℚ) < 1/2 ∧ (0 : ℚ) ≤ 60 ∧ (0 : ℚ) ≤ 1
    ∧ ∃ n, wait_until_stable (fun _ => 5) 60 1 (1/2) = some (true, n) := by
  refine ⟨by norm_num, by norm_num, by norm_num, ?_⟩
  exact (c6_wait_until_stable_contract (fun _ => 5) 60 1 (1/2)
    (by norm_num) (by norm_num) (by norm_num)).1 0 (fun i hi => rfl) (by norm_num)

/-- C9: on a path that does not exist at any sample point, every
`getsize` attempt yields the sentinel `-1`, which the loop treats as a
constant size, so `wait_until_stable` returns true (the never-existing
file is reported stable) instead of waiting for the file to appear or
returning false. -/
theorem c9_missing_file_reported_stable (sizeAt : Nat → Int)
    (timeout stable_time poll : ℚ)
    (hp : 0 < poll) (hto : 0 ≤ timeout) (hst : stable_time ≤ timeout)
    (habsent : ∀ k, sizeAt k = -1) :
    ∃ n, wait_until_stable sizeAt timeout stable_time poll = some (true, n) :=
  wait_const_true sizeAt timeout stable_time poll hp hto hst
    (fun j => by rw [habsent j, habsent 0])

/-- Witness for C9 at the source's default parameters. -/
theorem c9_missing_file_witness :
    (0 : ℚ) < 1/2
    ∧ ∃ n, wait_until_stable (fun _ => -1) 60 1 (1/2) = some (true, n) :=
  ⟨by norm_num, c9_missing_file_reported_stable (fun _ => -1) 60 1 (1/2)
    (by norm_num) (by norm_num) (by norm_num) (fun k => rfl)⟩

/-- C1 (counterexample): the no-reinvocation guarantee fails for steps
2 and 3 on a reachable record.  Starting from no metadata, a pass in
which the preserved copy already exists (so step 1 sets no flag) leaves
a record with `ass_to_srt` and `translate` true but `process_audio`
unset; a second pass loads that record, takes the full-pipeline branch,
and invokes `step2_ass_to_srt` even though its flag is true. -/
theorem c1_counterexample :
    flagTrue
      (load_meta
        (worker_pass ⟨true, true, true, true, "h", true, true, true⟩ "demo" "t1"
          (fun _ => none)).fs "demo") .ass_to_srt = true
    ∧ Ev.invoked .ass_to_srt
        ∈ (worker_pass ⟨true, true, true, true, "h", true, true, true⟩ "demo" "t2"
            (worker_pass ⟨true, true, true, true, "h", true, true, true⟩ "demo" "t1"
              (fun _ => none)).fs).trace := by
  refine ⟨by decide, by decide⟩

/-- C1 (amended): when the record loaded for the pass marks
`process_audio` complete, the worker invokes no step whose completion
flag is already true: it never invokes `step1_process_audio`, and it
skips `step2_ass_to_srt` and `step3_translate_srt` whenever their flags
are true.  (In the full-pipeline branch, taken when `process_audio` is
not complete, steps 2 and 3 are invoked regardless of their flags, as
the counterexample shows.) -/
theorem c1_flag_guard (env : Env) (base now : String) (fs : FS)
    (h : flagTrue (load_meta fs base) .process_audio = true) :
    Ev.invoked .process_audio ∉ (worker_pass env base now fs).trace
    ∧ (flagTrue (load_meta fs base) .ass_to_srt = true →
        Ev.invoked .ass_to_srt ∉ (worker_pass env base now fs).trace)
    ∧ (flagTrue (load_meta fs base) .translate = true →
        Ev.invoked .translate ∉ (worker_pass env base now fs).trace) := by
  obtain ⟨e1, e2, e3, e4, nh, e5, e6, e7⟩ := env
  by_cases h2 : flagTrue (load_meta fs base) .ass_to_srt = true
  <;> by_cases h3 : flagTrue (load_meta fs base) .translate = true
  <;> cases e6
  <;> cases e7
  <;> simp [worker_pass, step2_ass_to_srt, step3_translate_srt, h, h2, h3]

/-- Witness for C1 (amended) on a record with all three flags set. -/
theorem c1_flag_guard_witness :
    Ev.invoked .process_audio
      ∉ (worker_pass ⟨true, true, false, true, "h", true, true, true⟩ "demo" "t"
          (save_meta (fun _ => none) "demo"
            ⟨⟨some true, some true, some true⟩, some "h", none, []⟩)).trace
    ∧ Ev.invoked .ass_to_srt
      ∉ (worker_pass ⟨true, true, false, true, "h", true, true, true⟩ "demo" "t"
          (save_meta (fun _ => none) "demo"
            ⟨⟨some true, some true, some true⟩, some "h", none, []⟩)).trace := by
  have h := c1_flag_guard ⟨true, true, false, true, "h", true, true, true⟩ "demo" "t"
    (save_meta (fun _ => none) "demo"
      ⟨⟨some true, some true, some true⟩, some "h", none, []⟩) (by decide)
  exact ⟨h.1, h.2.1 (by decide)⟩

/-- C2 (counterexample): in a full-pipeline pass on a fresh job in
which steps 1 and 2 succeed and step 3 fails, no record with
`ass_to_srt = true` is ever persisted — the only save is step 1's own —
and the final stored record still lacks the flag, so a retry does not
resume at step 3 only. -/
theorem c2_counterexample :
    (∀ m ∈ savedRecords
        (worker_pass ⟨true, true, false, true, "h", true, true, false⟩ "demo" "t"
          (fun _ => none)).trace,
      getFlag m.steps_completed .ass_to_srt ≠ some true)
    ∧ getFlag
        (load_meta
          (worker_pass ⟨true, true, false, true, "h", true, true, false⟩ "demo" "t"
            (fun _ => none)).fs "demo").steps_completed .ass_to_srt = none
    ∧ (worker_pass ⟨true, true, false, true, "h", true, true, false⟩ "demo" "t"
        (fun _ => none)).err = some .calledProcessError := by
  refine ⟨by decide, by decide, by decide⟩

/-- C2 (amended): in a full-pipeline pass the `ass_to_srt` and
`translate` flags are persisted together in a single save only after
step 3 completes; nothing is persisted between steps 2 and 3.  Hence if
step 3 fails (on a job whose record does not already carry
`ass_to_srt = true`), no persisted record carries `ass_to_srt = true`
and the final stored record still lacks it, so a later retry re-runs
step 2 as well as step 3. -/
theorem c2_full_branch_saves_after_step3 (env : Env) (base now : String) (fs : FS)
    (h : flagTrue (load_meta fs base) .process_audio = false)
    (h2 : getFlag (load_meta fs base).steps_completed .ass_to_srt ≠ some true)
    (h3 : env.step3_exit_ok = false) :
    (∀ m ∈ savedRecords (worker_pass env base now fs).trace,
      getFlag m.steps_completed .ass_to_srt ≠ some true)
    ∧ getFlag (load_meta (worker_pass env base now fs).fs base).steps_completed
        .ass_to_srt ≠ some true := by
  obtain ⟨e1, e2, e3, e4, nh, e5, e6, e7⟩ := env
  simp only at h3
  subst h3
  cases e1
  <;> cases e2
  <;> cases e3
  <;> cases e4
  <;> cases e5
  <;> cases e6
  <;> simp [worker_pass, step1_process_audio, step2_ass_to_srt, step3_translate_srt,
        savedRecords, load_save_meta, h, h2, getFlag, setFlag]
  <;> simpa [getFlag] using h2

/-- Witness for C2 (amended) at the counterexample's input. -/
theorem c2_full_branch_witness :
    getFlag
      (load_meta
        (worker_pass ⟨true, true, false, true, "h", false, true, false⟩ "demo" "t"
          (fun _ => none)).fs "demo").steps_completed .ass_to_srt ≠ some true :=
  (c2_full_branch_saves_after_step3 ⟨true, true, false, true, "h", false, true, false⟩
    "demo" "t" (fun _ => none) (by decide) (by decide) (by decide)).2

/-- C3 (counterexample): on a fresh job whose step-1 external call
succeeds, whose artifact exists and stabilises, but whose relocation
into the artifact area fails, the persisted record already carries
`process_audio = true` although no relocation happened: the save
precedes the moves in the source. -/
theorem c3_counterexample :
    flagTrue
      (load_meta
        (step1_process_audio ⟨true, true, false, true, "h", false, true, true⟩ "demo" "t"
          (fun _ => none)).fs "demo") .process_audio = true
    ∧ Ev.movedToArtifacts
        ∉ (step1_process_audio ⟨true, true, false, true, "h", false, true, true⟩ "demo" "t"
            (fun _ => none)).trace
    ∧ (step1_process_audio ⟨true, true, false, true, "h", false, true, true⟩ "demo" "t"
        (fun _ => none)).err = some .moveFailed := by
  refine ⟨by decide, by decide, by decide⟩

/-- C3 (amended): step 1 persists `process_audio = true` only after its
external call succeeded, the expected subtitle file existed, this was
the first successful run (no preserved copy yet) and the stability wait
succeeded — but before the relocation into the artifact area: a failed
relocation still leaves the flag persisted. -/
theorem c3_flag_saved_before_relocation (env : Env) (base now : String) (fs : FS) :
    (flagTrue (load_meta (step1_process_audio env base now fs).fs base) .process_audio = true →
      flagTrue (load_meta fs base) .process_audio = true
      ∨ (env.step1_exit_ok = true ∧ env.ass_created = true ∧ env.orig_exists = false
          ∧ env.stable_ok = true))
    ∧ (env.step1_exit_ok = true → env.ass_created = true → env.orig_exists = false →
        env.stable_ok = true → env.move_ok = false →
        flagTrue (load_meta (step1_process_audio env base now fs).fs base)
            .process_audio = true
        ∧ Ev.movedToArtifacts ∉ (step1_process_audio env base now fs).trace
        ∧ (step1_process_audio env base now fs).err = some .moveFailed) := by
  obtain ⟨e1, e2, e3, e4, nh, e5, e6, e7⟩ := env
  cases e1
  <;> cases e2
  <;> cases e3
  <;> cases e4
  <;> cases e5
  <;> simp [step1_process_audio, load_save_meta, flagTrue, getFlag, setFlag]

/-- Witness for C3 (amended) at the counterexample's input. -/
theorem c3_flag_saved_witness :
    flagTrue
      (load_meta
        (step1_process_audio ⟨true, true, false, true, "h", false, true, true⟩ "demo" "t"
          (fun _ => none)).fs "demo") .process_audio = true
    ∧ (step1_process_audio ⟨true, true, false, true, "h", false, true, true⟩ "demo" "t"
        (fun _ => none)).err = some .moveFailed := by
  have h := (c3_flag_saved_before_relocation ⟨true, true, false, true, "h", false, true, true⟩
    "demo" "t" (fun _ => none)).2 rfl rfl rfl rfl rfl
  exact ⟨h.1, h.2.2⟩

/-- C4: when the subtitle-edit handler fires on a stable `.ass` file
and the hash computation succeeds, then: if the new hash differs from
the stored `ass_hash`, the persisted record carries the new hash with
the `ass_to_srt` and `translate` entries removed while `process_audio`,
`last_updated` and every other field are unchanged, and the base name
is enqueued (the returned Bool); if the hash equals the stored one, the
store is untouched and nothing is enqueued. -/
theorem c4_edit_handler (env : EditEnv) (base : String) (fs : FS)
    (hs : env.stable_ok = true) (hh : env.hash_ok = true) :
    ((load_meta fs base).ass_hash ≠ some env.new_hash →
      (on_modified env base fs).2 = true
      ∧ load_meta (on_modified env base fs).1 base =
          { load_meta fs base with
              ass_hash := some env.new_hash
              steps_completed :=
                ⟨(load_meta fs base).steps_completed.process_audio, none, none⟩ })
    ∧ ((load_meta fs base).ass_hash = some env.new_hash →
      on_modified env base fs = (fs, false)) := by
  obtain ⟨s1, s2, nh⟩ := env
  simp only at hs hh
  subst hs
  subst hh
  by_cases hx : (load_meta fs base).ass_hash = some nh
  · simp [on_modified, hx]
  · simp [on_modified, hx, load_save_meta, setFlag]

/-- Witness for C4 on a record whose stored hash differs from the
edited file's hash. -/
theorem c4_edit_handler_witness :
    (on_modified ⟨true, true, "h2"⟩ "demo"
      (save_meta (fun _ => none) "demo"
        ⟨⟨some true, some true, some true⟩, some "h1", some "t0", []⟩)).2 = true :=
  ((c4_edit_handler ⟨true, true, "h2"⟩ "demo"
    (save_meta (fun _ => none) "demo"
      ⟨⟨some true, some true, some true⟩, some "h1", some "t0", []⟩) rfl rfl).1
    (by decide)).1

/-- C7: the worker loop processes exactly the queued identifiers that
precede the first sentinel, in order, whatever the outcomes of the
passes: an exception inside a pass is caught (it is the `err` field of
that pass's `Out`, and the loop goes on to the next item), and only the
sentinel `none` terminates the loop. -/
theorem c7_worker_survives_errors (now : String) (fs : FS)
    (tasks : List (Option (String × Env))) :
    ((worker_loop now fs tasks).2).map Prod.fst
      = (tasks.takeWhile Option.isSome).filterMap (fun t => t.map Prod.fst) := by
  induction tasks generalizing fs with
  | nil => simp [worker_loop]
  | cons t rest ih =>
    cases t with
    | none => simp [worker_loop, List.takeWhile]
    | some be =>
      obtain ⟨b, e⟩ := be
      simp [worker_loop, List.takeWhile, ih]

/-- C8: when step 1 returns without setting its flag — because the
preserved `.ass.orig` copy already exists, or because the stability
wait on the generated subtitle file fails — and steps 2 and 3 succeed,
the pass ends without error and the persisted record has
`ass_to_srt = true` and `translate = true` while `process_audio` is
still unset. -/
theorem c8_downstream_without_upstream (env : Env) (base now : String) (fs : FS)
    (h0 : getFlag (load_meta fs base).steps_completed .process_audio = none)
    (h1 : env.step1_exit_ok = true) (h2 : env.ass_created = true)
    (h3 : env.orig_exists = true ∨ env.stable_ok = false)
    (h4 : env.step2_exit_ok = true) (h5 : env.step3_exit_ok = true) :
    getFlag (load_meta (worker_pass env base now fs).fs base).steps_completed
        .ass_to_srt = some true
    ∧ getFlag (load_meta (worker_pass env base now fs).fs base).steps_completed
        .translate = some true
    ∧ getFlag (load_meta (worker_pass env base now fs).fs base).steps_completed
        .process_audio = none
    ∧ (worker_pass env base now fs).err = none := by
  obtain ⟨e1, e2, e3, e4, nh, e5, e6, e7⟩ := env
  simp only at h1 h2 h3 h4 h5
  subst h1
  subst h2
  subst h4
  subst h5
  have hpa : flagTrue (load_meta fs base) .process_audio = false :=
    flagTrue_eq_false_of_ne _ _ (by rw [h0]; simp)
  simp only [getFlag] at h0
  rcases h3 with h3 | h3
  <;> subst h3
  <;> cases e5
  <;> simp [worker_pass, step1_process_audio, step2_ass_to_srt, step3_translate_srt,
        load_save_meta, hpa, getFlag, setFlag, h0]

/-- Witness for C8: a fresh job whose preserved copy already exists. -/
theorem c8_downstream_witness :
    getFlag
      (load_meta
        (worker_pass ⟨true, true, true, true, "h", true, true, true⟩ "demo" "t"
          (fun _ => none)).fs "demo").steps_completed .ass_to_srt = some true
    ∧ getFlag
        (load_meta
          (worker_pass ⟨true, true, true, true, "h", true, true, true⟩ "demo" "t"
            (fun _ => none)).fs "demo").steps_completed .process_audio = none := by
  have h := c8_downstream_without_upstream ⟨true, true, true, true, "h", true, true, true⟩
    "demo" "t" (fun _ => none) (by decide) rfl rfl (Or.inl rfl) rfl rfl
  exact ⟨h.1, h.2.2.1⟩

/-- C10: in resume mode, flags are only ever seeded to true and never
cleared: the `--from-step` default is 2; seeding with the default marks
`process_audio` complete whether or not step 1 ever ran; any flag
already true stays true for every choice of `--from-step`; and on a
record that already marks `ass_to_srt` and `translate` complete,
resuming with the default enqueues the job while the subsequent worker
pass invokes no step at all. -/
theorem c10_resume_monotone (fromStep : Nat) (base now : String) (fs : FS) (env : Env) :
    default_from_step = 2
    ∧ (∀ s : StepName, flagTrue (load_meta fs base) s = true →
        flagTrue (load_meta (resume_seed fromStep base fs).1 base) s = true)
    ∧ flagTrue (load_meta (resume_seed default_from_step base fs).1 base)
        .process_audio = true
    ∧ (getFlag (load_meta fs base).steps_completed .ass_to_srt = some true →
        getFlag (load_meta fs base).steps_completed .translate = some true →
        (resume_seed default_from_step base fs).2 = true
        ∧ ∀ s, Ev.invoked s
            ∉ (worker_pass env base now (resume_seed default_from_step base fs).1).trace) := by
  refine ⟨rfl, ?_, ?_, ?_⟩
  · intro s hflag
    have hg := (flagTrue_iff _ _).mp hflag
    simp only [getFlag] at hg
    rcases fromStep with _ | _ | _ | k
    · simpa [resume_seed] using hflag
    · simpa [resume_seed] using hflag
    · cases s
      <;> simp only [getFlag] at hg
      <;> simp [resume_seed, load_save_meta, flagTrue, getFlag, setFlag, hg]
    · rcases k with _ | k
      · cases s
        <;> simp only [getFlag] at hg
        <;> simp [resume_seed, load_save_meta, flagTrue, getFlag, setFlag, hg]
      · simpa [resume_seed] using hflag
  · simp [default_from_step, resume_seed, load_save_meta, flagTrue, getFlag, setFlag]
  · intro ha ht
    simp only [getFlag] at ha ht
    refine ⟨by simp [default_from_step, resume_seed], ?_⟩
    intro s
    have hload : load_meta (resume_seed default_from_step base fs).1 base =
        { load_meta fs base with
            steps_completed :=
              setFlag (load_meta fs base).steps_completed .process_audio (some true) } := by
      simp [default_from_step, resume_seed, load_save_meta]
    simp [worker_pass, hload, flagTrue, getFlag, setFlag, ha, ht]

/-- Witness for C10 on a record with steps 2 and 3 complete. -/
theorem c10_resume_witness :
    (resume_seed default_from_step "demo"
        (save_meta (fun _ => none) "demo"
          ⟨⟨none, some true, some true⟩, some "h", none, []⟩)).2 = true
    ∧ ∀ s, Ev.invoked s
        ∉ (worker_pass ⟨true, true, false, true, "h", true, true, true⟩ "demo" "t"
            (resume_seed default_from_step "demo"
              (save_meta (fun _ => none) "demo"
                ⟨⟨none, some true, some true⟩, some "h", none, []⟩)).1).trace :=
  (c10_resume_monotone default_from_step "demo" "t"
    (save_meta (fun _ => none) "demo" ⟨⟨none, some true, some true⟩, some "h", none, []⟩)
    ⟨true, true, false, true, "h", true, true, true⟩).2.2.2 (by decide) (by decide)

end Awork
